import Mathlib

/-!
Shallow embedding of the PicoVFO rotary-encoder / ballistic-tuner core
(src/main.cpp): the quadrature decoder (encoder_callback), the switch
debounce latch (handle_switch), the adaptive step tuner (TunerIDI) and the
EMA velocity estimator (RollingVelocity).

Modelling notes:
* uint32_t timestamps are Nat values reduced mod 2^32; uint32 subtraction
  and addition wrap, which sub32 / wrap32 make explicit.
* TunerIDI.freqHz is a C++ double, but every value it can reach is a
  mathematical integer: the initial value 7100000, the band bounds and
  every applied delta (step * mult * sign, an int) are integers, and all
  reachable magnitudes are far below 2^53, so double arithmetic on them is
  exact.  The field is therefore embedded as an Int, exactly.
* multiplier_from_idi computes (int)(300.0 / max(idi, 50)).  For x >= 50
  the real quotient 300/x is either an exact integer (x divides 300) or at
  distance >= 1/x > 2^-33 from one, far above double rounding error at
  magnitude <= 6, so the truncated double equals Nat division 300 / x.
* The C while loops over step_index run at most 9 iterations (the guards
  carry current < 9 resp. current > 0), so they are embedded as
  structurally recursive loops with that explicit iteration bound, plus a
  fuel-stability lemma showing the bound is never hit early.
* Function-static state (saved_enc, last_move_ms, last_detent_ms,
  fast_streak) is lifted into explicit state-structure fields.
-/

namespace PicoVFO

/-- 2^32, the modulus of uint32_t arithmetic. -/
def U32 : Nat := 4294967296

/-- Reduction of a Nat into uint32_t range. -/
def wrap32 (a : Nat) : Nat := a % U32

/-- uint32_t subtraction a - b (wrapping), for operands reduced mod 2^32. -/
def sub32 (a b : Nat) : Nat := (a % U32 + U32 - b % U32) % U32

/-! ## Quadrature decoder (encoder_callback, src/main.cpp lines 203-224) -/

/-- Decoder state: the function-static saved_enc register and the shared
tick accumulator encoder_count. -/
structure Enc where
  saved : Nat
  count : Int
  deriving DecidableEq

/-- The fixed forward transition table of encoder_callback
(line 216): (2,3), (3,1), (1,0), (0,2). -/
def fwd_pair (p n : Nat) : Bool :=
  (p == 2 && n == 3) || (p == 3 && n == 1) || (p == 1 && n == 0) || (p == 0 && n == 2)

/-- The fixed reverse transition table of encoder_callback
(line 220): (3,2), (2,0), (0,1), (1,3). -/
def rev_pair (p n : Nat) : Bool :=
  (p == 3 && n == 2) || (p == 2 && n == 0) || (p == 0 && n == 1) || (p == 1 && n == 3)

/-- One quadrature sample: the body of encoder_callback for a CLK/DT edge.
A repeated code returns early; otherwise saved_enc is updated and the
accumulator moves by the table verdict. -/
def encoder_sample (s : Enc) (n : Nat) : Enc :=
  if n = s.saved then s
  else if fwd_pair s.saved n then ⟨n, s.count + 1⟩
  else if rev_pair s.saved n then ⟨n, s.count - 1⟩
  else ⟨n, s.count⟩

/-! ## Switch debounce latch (handle_switch, src/main.cpp lines 176-189) -/

/-- The two shared flags handle_switch reads and writes. -/
structure Switch where
  button_state : Bool
  button_pressed : Bool
  deriving DecidableEq

/-- handle_switch: the deferred confirmation that reads the live pin level
(pin = true means the pin reads 1, pressed). -/
def handle_switch (pin : Bool) (s : Switch) : Switch :=
  if pin = true ∧ s.button_state = false then
    { button_state := true, button_pressed := true }
  else if pin = false ∧ s.button_state = true then
    { s with button_state := false }
  else s

/-! ## Velocity estimator (RollingVelocity, src/main.cpp lines 59-86) -/

/-- RollingVelocity: smoothing rate and the stored EMA value. -/
structure RollingVelocity where
  alpha_per_sec : ℝ
  v_ema : ℝ

/-- RollingVelocity::update: returns the (returned value, new state) pair.
The dt <= 0 guard returns early; otherwise the EMA is blended toward the
instantaneous magnitude rate with a time-aware alpha. -/
noncomputable def RollingVelocity.update (s : RollingVelocity) (detents : ℤ)
    (dt : ℝ) : ℝ × RollingVelocity :=
  if dt ≤ 0 then (s.v_ema, s)
  else
    let v_instant := |(detents : ℝ)| / dt
    let alpha := 1 - Real.exp (-s.alpha_per_sec * dt)
    let v2 := (1 - alpha) * s.v_ema + alpha * v_instant
    (v2, { s with v_ema := v2 })

/-! ## Adaptive step tuner (TunerIDI, src/main.cpp lines 89-165) -/

/-- steps[10] = { 1, 10, 50, 100, 500, 1000, 2000, 5000, 10000, 20000 }. -/
def steps : Nat → Int
  | 0 => 1
  | 1 => 10
  | 2 => 50
  | 3 => 100
  | 4 => 500
  | 5 => 1000
  | 6 => 2000
  | 7 => 5000
  | 8 => 10000
  | _ => 20000

/-- up_ms[10] = { 9999, 260, 200, 160, 120, 95, 80, 65, 55, 0 }. -/
def up_ms : Nat → Nat
  | 0 => 9999
  | 1 => 260
  | 2 => 200
  | 3 => 160
  | 4 => 120
  | 5 => 95
  | 6 => 80
  | 7 => 65
  | 8 => 55
  | _ => 0

/-- down_ms[10] = { 9999, 320, 250, 200, 160, 130, 110, 90, 75, 0 }. -/
def down_ms : Nat → Nat
  | 0 => 9999
  | 1 => 320
  | 2 => 250
  | 3 => 200
  | 4 => 160
  | 5 => 130
  | 6 => 110
  | 7 => 90
  | 8 => 75
  | _ => 0

/-- fMin = 7000000. -/
def fMin : Int := 7000000

/-- fMax = 7200000. -/
def fMax : Int := 7200000

/-- TunerIDI::multiplier_from_idi: (int)(300.0 / max(idi_ms, 50)) clamped
into 1..8 (the double division truncates to Nat division, see header). -/
def multiplier_from_idi (idi_ms : Nat) : Nat :=
  let m := 300 / max idi_ms 50
  let m2 := if m < 1 then 1 else m
  if m2 > 8 then 8 else m2

/-- The promotion loop, with an explicit iteration budget:
while (current < 9 && idi <= up_ms[current + 1]) ++current.
Each pass increments current and the guard keeps current < 9, so at most
9 passes ever run; promoteFuel_stable below shows fuel 9 is never
exhausted early. -/
def promoteFuel (idi : Nat) : Nat → Nat → Nat
  | 0, c => c
  | f + 1, c =>
    if c < 9 ∧ idi ≤ up_ms (c + 1) then promoteFuel idi f (c + 1) else c

/-- The promotion loop of TunerIDI::update (line 131). -/
def promote (idi c : Nat) : Nat := promoteFuel idi 9 c

/-- The demotion loop, with an explicit iteration budget:
while (current > 0 && idi >= down_ms[current]) --current.
Each pass decrements current toward the 0 guard, so c passes suffice. -/
def demoteFuel (idi : Nat) : Nat → Nat → Nat
  | 0, c => c
  | f + 1, c =>
    if 0 < c ∧ down_ms c ≤ idi then demoteFuel idi f (c - 1) else c

/-- The demotion loop of TunerIDI::update (line 132). -/
def demote (idi c : Nat) : Nat := demoteFuel idi c c

/-- The full hysteretic rung classification of lines 131-132. -/
def classify (idi c : Nat) : Nat := demote idi (promote idi c)

/-- The fast-streak / turbo block of lines 135-143: returns the new
(fast_streak, turbo_until_ms) pair. -/
def streakStep (fast_streak idi now turbo : Nat) : Nat × Nat :=
  if idi < 70 then
    if fast_streak + 1 ≥ 3 then (0, wrap32 (now + 250))
    else (fast_streak + 1, turbo)
  else (0, turbo)

/-- The step selection with turbo override of lines 145-153. -/
def stepFor (now turbo c1 : Nat) : Int :=
  if now < turbo ∧ c1 < 9 then steps (c1 + 1) else steps c1

/-- The band clamp of lines 160-161, as the two sequential ifs. -/
def clampBand (x : Int) : Int :=
  let f1 := if x < fMin then fMin else x
  if f1 > fMax then fMax else f1

/-- TunerIDI state: the fields of the struct plus the function-static
last_move_ms, last_detent_ms and fast_streak of update. -/
structure Tuner where
  current : Nat
  freqHz : Int
  turbo_until_ms : Nat
  fast_streak : Nat
  last_move_ms : Nat
  last_detent_ms : Nat
  deriving DecidableEq

/-- The inter-detent interval computed at line 126 (uint32 wrapping
subtraction); now is already reduced mod 2^32. -/
def idiOf (s : Tuner) (now : Nat) : Nat := sub32 now s.last_detent_ms

/-- TunerIDI::update (lines 114-162). -/
def Tuner.update (s : Tuner) (detents : Int) (now_ms : Nat) : Tuner :=
  let now := wrap32 now_ms
  if detents = 0 then
    if 150 < sub32 now s.last_move_ms then { s with current := 0 } else s
  else
    let idi := idiOf s now
    let c1 := classify idi s.current
    let st := streakStep s.fast_streak idi now s.turbo_until_ms
    let step := stepFor now st.2 c1
    let mult : Int := multiplier_from_idi idi
    let deltaHz := step * mult * (if 0 < detents then 1 else -1)
    { current := c1,
      freqHz := clampBand (s.freqHz + deltaHz),
      turbo_until_ms := st.2,
      fast_streak := st.1,
      last_move_ms := now,
      last_detent_ms := now }

/-- The tuner state at the first update call: current = 0,
freqHz = 7100000, turbo_until_ms = 0, fast_streak = 0, and the static
timestamps initialized to the first call time t0. -/
def initState (t0 : Nat) : Tuner :=
  ⟨0, 7100000, 0, 0, wrap32 t0, wrap32 t0⟩

/-- Folding a list of (detents, now_ms) events through Tuner.update from
the initial state. -/
def run (t0 : Nat) (evs : List (Int × Nat)) : Tuner :=
  evs.foldl (fun s e => Tuner.update s e.1 e.2) (initState t0)

/-- A maximal-speed detent script: +1 detents at 1 ms spacing. -/
def fastSeq : List (Int × Nat) :=
  [(1, 1), (1, 2), (1, 3), (1, 4), (1, 5), (1, 6)]

/-! ## Helper lemmas -/

/-- The promotion loop never runs out of fuel: once the budget covers the
distance to the c < 9 guard, adding more fuel changes nothing. -/
theorem promoteFuel_stable (idi : Nat) :
    ∀ f c, 9 ≤ f + c → promoteFuel idi f c = promoteFuel idi (f + 1) c := by
  intro f
  induction f with
  | zero =>
    intro c h
    have hc : ¬(c < 9 ∧ idi ≤ up_ms (c + 1)) := fun hh => absurd hh.1 (by omega)
    simp [promoteFuel, hc]
  | succ f ih =>
    intro c h
    show (if c < 9 ∧ idi ≤ up_ms (c + 1) then promoteFuel idi f (c + 1) else c)
        = (if c < 9 ∧ idi ≤ up_ms (c + 1) then promoteFuel idi (f + 1) (c + 1) else c)
    by_cases hg : c < 9 ∧ idi ≤ up_ms (c + 1)
    · rw [if_pos hg, if_pos hg]
      exact ih (c + 1) (by omega)
    · rw [if_neg hg, if_neg hg]

/-- The demotion loop never runs out of fuel either. -/
theorem demoteFuel_stable (idi : Nat) :
    ∀ f c, c ≤ f → demoteFuel idi f c = demoteFuel idi (f + 1) c := by
  intro f
  induction f with
  | zero =>
    intro c h
    have hc : ¬(0 < c ∧ down_ms c ≤ idi) := fun hh => absurd hh.1 (by omega)
    simp [demoteFuel, hc]
  | succ f ih =>
    intro c h
    show (if 0 < c ∧ down_ms c ≤ idi then demoteFuel idi f (c - 1) else c)
        = (if 0 < c ∧ down_ms c ≤ idi then demoteFuel idi (f + 1) (c - 1) else c)
    by_cases hg : 0 < c ∧ down_ms c ≤ idi
    · rw [if_pos hg, if_pos hg]
      exact ih (c - 1) (by omega)
    · rw [if_neg hg, if_neg hg]

theorem promoteFuel_le_nine (idi : Nat) :
    ∀ f c, c ≤ 9 → promoteFuel idi f c ≤ 9 := by
  intro f
  induction f with
  | zero => intro c h; exact h
  | succ f ih =>
    intro c h
    show (if c < 9 ∧ idi ≤ up_ms (c + 1) then promoteFuel idi f (c + 1) else c) ≤ 9
    by_cases hg : c < 9 ∧ idi ≤ up_ms (c + 1)
    · rw [if_pos hg]; exact ih (c + 1) (by omega)
    · rw [if_neg hg]; exact h

theorem le_promoteFuel (idi : Nat) :
    ∀ f c, c ≤ promoteFuel idi f c := by
  intro f
  induction f with
  | zero => intro c; exact Nat.le_refl c
  | succ f ih =>
    intro c
    show c ≤ if c < 9 ∧ idi ≤ up_ms (c + 1) then promoteFuel idi f (c + 1) else c
    by_cases hg : c < 9 ∧ idi ≤ up_ms (c + 1)
    · rw [if_pos hg]; exact Nat.le_trans (Nat.le_succ c) (ih (c + 1))
    · rw [if_neg hg]

theorem demoteFuel_le (idi : Nat) :
    ∀ f c, demoteFuel idi f c ≤ c := by
  intro f
  induction f with
  | zero => intro c; exact Nat.le_refl c
  | succ f ih =>
    intro c
    show (if 0 < c ∧ down_ms c ≤ idi then demoteFuel idi f (c - 1) else c) ≤ c
    by_cases hg : 0 < c ∧ down_ms c ≤ idi
    · rw [if_pos hg]; exact Nat.le_trans (ih (c - 1)) (Nat.sub_le c 1)
    · rw [if_neg hg]

theorem promote_le_nine (idi c : Nat) (h : c ≤ 9) : promote idi c ≤ 9 :=
  promoteFuel_le_nine idi 9 c h

theorem le_promote (idi c : Nat) : c ≤ promote idi c :=
  le_promoteFuel idi 9 c

theorem demote_le (idi c : Nat) : demote idi c ≤ c :=
  demoteFuel_le idi c c

theorem classify_le_nine (idi c : Nat) (h : c ≤ 9) : classify idi c ≤ 9 :=
  Nat.le_trans (demote_le idi (promote idi c)) (promote_le_nine idi c h)

/-- Unfolding of Tuner.update on a non-zero detent count. -/
theorem update_eq_of_ne (s : Tuner) (d : Int) (now : Nat) (hd : d ≠ 0) :
    Tuner.update s d now =
      { current := classify (idiOf s (wrap32 now)) s.current,
        freqHz := clampBand (s.freqHz +
          stepFor (wrap32 now)
            (streakStep s.fast_streak (idiOf s (wrap32 now)) (wrap32 now)
              s.turbo_until_ms).2
            (classify (idiOf s (wrap32 now)) s.current) *
          (multiplier_from_idi (idiOf s (wrap32 now)) : Int) *
          (if 0 < d then 1 else -1)),
        turbo_until_ms := (streakStep s.fast_streak (idiOf s (wrap32 now))
          (wrap32 now) s.turbo_until_ms).2,
        fast_streak := (streakStep s.fast_streak (idiOf s (wrap32 now))
          (wrap32 now) s.turbo_until_ms).1,
        last_move_ms := wrap32 now,
        last_detent_ms := wrap32 now } := by
  simp only [Tuner.update, if_neg hd]

/-- Unfolding of Tuner.update on an idle call. -/
theorem update_eq_of_zero (s : Tuner) (now : Nat) :
    Tuner.update s 0 now =
      if 150 < sub32 (wrap32 now) s.last_move_ms then { s with current := 0 }
      else s := by
  simp only [Tuner.update, if_pos rfl, if_true]

/-- The band clamp lands in the band. -/
theorem clampBand_mem (x : Int) : fMin ≤ clampBand x ∧ clampBand x ≤ fMax := by
  simp only [clampBand, fMin, fMax]
  split_ifs <;> omega

/-- A single update call keeps the frequency in the band. -/
theorem update_band (s : Tuner) (d : Int) (now : Nat)
    (h1 : fMin ≤ s.freqHz) (h2 : s.freqHz ≤ fMax) :
    fMin ≤ (Tuner.update s d now).freqHz ∧
      (Tuner.update s d now).freqHz ≤ fMax := by
  by_cases hd : d = 0
  · subst hd
    rw [update_eq_of_zero]
    split_ifs <;> exact ⟨h1, h2⟩
  · rw [update_eq_of_ne s d now hd]
    exact clampBand_mem _

/-- Folding any event list through update keeps the frequency in band. -/
theorem foldl_band :
    ∀ (evs : List (Int × Nat)) (s : Tuner), fMin ≤ s.freqHz → s.freqHz ≤ fMax →
      fMin ≤ (evs.foldl (fun s e => Tuner.update s e.1 e.2) s).freqHz ∧
        (evs.foldl (fun s e => Tuner.update s e.1 e.2) s).freqHz ≤ fMax := by
  intro evs
  induction evs with
  | nil => intro s h1 h2; exact ⟨h1, h2⟩
  | cons e evs ih =>
    intro s h1 h2
    have hb := update_band s e.1 e.2 h1 h2
    exact ih (Tuner.update s e.1 e.2) hb.1 hb.2

/-- Field projections of a non-idle update: the new step index. -/
theorem update_current_of_ne (s : Tuner) (d : Int) (now : Nat) (hd : d ≠ 0) :
    (Tuner.update s d now).current
      = classify (idiOf s (wrap32 now)) s.current := by
  rw [update_eq_of_ne s d now hd]

/-- Field projections of a non-idle update: the new frequency. -/
theorem update_freq_of_ne (s : Tuner) (d : Int) (now : Nat) (hd : d ≠ 0) :
    (Tuner.update s d now).freqHz
      = clampBand (s.freqHz +
          stepFor (wrap32 now)
            (streakStep s.fast_streak (idiOf s (wrap32 now)) (wrap32 now)
              s.turbo_until_ms).2
            (classify (idiOf s (wrap32 now)) s.current) *
          (multiplier_from_idi (idiOf s (wrap32 now)) : Int) *
          (if 0 < d then 1 else -1)) := by
  rw [update_eq_of_ne s d now hd]

/-- Field projections of a non-idle update: the new turbo deadline. -/
theorem update_turbo_of_ne (s : Tuner) (d : Int) (now : Nat) (hd : d ≠ 0) :
    (Tuner.update s d now).turbo_until_ms
      = (streakStep s.fast_streak (idiOf s (wrap32 now)) (wrap32 now)
          s.turbo_until_ms).2 := by
  rw [update_eq_of_ne s d now hd]

/-- Field projections of a non-idle update: the new fast streak. -/
theorem update_streak_of_ne (s : Tuner) (d : Int) (now : Nat) (hd : d ≠ 0) :
    (Tuner.update s d now).fast_streak
      = (streakStep s.fast_streak (idiOf s (wrap32 now)) (wrap32 now)
          s.turbo_until_ms).1 := by
  rw [update_eq_of_ne s d now hd]

/-- Every usable up_ms threshold (index 1..8) is at least 55 ms. -/
theorem up_ms_ge (i : Nat) (h1 : 1 ≤ i) (h8 : i ≤ 8) : 55 ≤ up_ms i := by
  interval_cases i <;> decide

/-- With 1 <= idi < 55 the promotion loop climbs to exactly 8: every
threshold up to up_ms[8] = 55 admits idi, while up_ms[9] = 0 does not. -/
theorem promoteFuel_fast (idi : Nat) (h1 : 1 ≤ idi) (h55 : idi < 55) :
    ∀ f c, 9 ≤ f + c → c ≤ 8 → promoteFuel idi f c = 8 := by
  intro f
  induction f with
  | zero => intro c h hc; omega
  | succ f ih =>
    intro c h hc
    show (if c < 9 ∧ idi ≤ up_ms (c + 1) then promoteFuel idi f (c + 1) else c) = 8
    by_cases hc8 : c = 8
    · subst hc8
      have hne : ¬(8 < 9 ∧ idi ≤ up_ms 9) := by
        intro hh
        have h0 : up_ms 9 = 0 := rfl
        omega
      rw [if_neg hne]
    · have hg : c < 9 ∧ idi ≤ up_ms (c + 1) := by
        refine ⟨by omega, ?_⟩
        have := up_ms_ge (c + 1) (by omega) (by omega)
        omega
      rw [if_pos hg]
      exact ih (c + 1) (by omega) (by omega)

/-- Promotion from any rung at most 8 under a fast interval lands on 8. -/
theorem promote_fast (idi c : Nat) (h1 : 1 ≤ idi) (h55 : idi < 55)
    (hc : c ≤ 8) : promote idi c = 8 :=
  promoteFuel_fast idi h1 h55 9 c (by omega) hc

/-- Promotion from rung 9 is a no-op. -/
theorem promote_nine (idi : Nat) : promote idi 9 = 9 := by
  have hne : ¬(9 < 9 ∧ idi ≤ up_ms 10) := fun hh => absurd hh.1 (by omega)
  simp [promote, promoteFuel, hne]

/-- Demotion from rung 8 under idi < 75 is a no-op. -/
theorem demote_eight (idi : Nat) (h : idi < 75) : demote idi 8 = 8 := by
  have hne : ¬(0 < 8 ∧ down_ms 8 ≤ idi) := by
    intro hh
    have h75 : down_ms 8 = 75 := rfl
    omega
  show demoteFuel idi 8 8 = 8
  show (if 0 < 8 ∧ down_ms 8 ≤ idi then demoteFuel idi 7 7 else 8) = 8
  rw [if_neg hne]

/-- Demotion from rung 9 under idi < 75 lands on 8: down_ms[9] = 0 always
fires, down_ms[8] = 75 does not. -/
theorem demote_nine (idi : Nat) (h : idi < 75) : demote idi 9 = 8 := by
  have hg : 0 < 9 ∧ down_ms 9 ≤ idi := by
    have h0 : down_ms 9 = 0 := rfl
    omega
  have hne : ¬(0 < 8 ∧ down_ms 8 ≤ idi) := by
    intro hh
    have h75 : down_ms 8 = 75 := rfl
    omega
  show demoteFuel idi 9 9 = 8
  show (if 0 < 9 ∧ down_ms 9 ≤ idi then demoteFuel idi 8 8 else 9) = 8
  rw [if_pos hg]
  show (if 0 < 8 ∧ down_ms 8 ≤ idi then demoteFuel idi 7 7 else 8) = 8
  rw [if_neg hne]

/-- The full classification under a fast interval lands on rung 8 from
every rung in [0, 9]. -/
theorem classify_fast (idi c : Nat) (h1 : 1 ≤ idi) (h55 : idi < 55)
    (hc : c ≤ 9) : classify idi c = 8 := by
  by_cases hc8 : c ≤ 8
  · unfold classify
    rw [promote_fast idi c h1 h55 hc8]
    exact demote_eight idi (by omega)
  · have hc9 : c = 9 := by omega
    subst hc9
    unfold classify
    rw [promote_nine idi]
    exact demote_nine idi (by omega)

/-- On zero detents with positive dt the EMA decays by exp(-alpha dt):
the instantaneous rate is 0, so the blend multiplies the stored value by
1 - alpha = exp(-alpha_per_sec * dt). -/
theorem velocity_update_zero_pos (s : RollingVelocity) (dt : ℝ) (h : 0 < dt) :
    ((RollingVelocity.update s 0 dt).2).v_ema
      = Real.exp (-s.alpha_per_sec * dt) * s.v_ema := by
  unfold RollingVelocity.update
  rw [if_neg (not_le.mpr h)]
  show (1 - (1 - Real.exp (-s.alpha_per_sec * dt))) * s.v_ema
      + (1 - Real.exp (-s.alpha_per_sec * dt)) * (|((0 : ℤ) : ℝ)| / dt) = _
  simp only [Int.cast_zero, abs_zero, zero_div, mul_zero, add_zero]
  ring

/-! ## Claim theorems -/

/-- C1: after any sequence of update calls from the initial state
(frequency 7100000), with detents of any magnitude and sign and any
timestamps, frequency_hz lies in the closed band [7000000, 7200000];
an out-of-band intermediate result is pulled to the nearest bound by the
clamp, never wrapped. -/
theorem freq_stays_in_band :
    (∀ (t0 : Nat) (evs : List (Int × Nat)),
      fMin ≤ (run t0 evs).freqHz ∧ (run t0 evs).freqHz ≤ fMax)
    ∧ (∀ x : Int, x < fMin → clampBand x = fMin)
    ∧ (∀ x : Int, fMax < x → clampBand x = fMax)
    ∧ (∀ x : Int, fMin ≤ x → x ≤ fMax → clampBand x = x) := by
  refine ⟨fun t0 evs => ?_, fun x hx => ?_, fun x hx => ?_, fun x h1 h2 => ?_⟩
  · exact foldl_band evs (initState t0) (by norm_num [initState, fMin])
      (by norm_num [initState, fMax])
  · simp only [clampBand, fMin, fMax] at hx ⊢
    split_ifs <;> omega
  · simp only [clampBand, fMin, fMax] at hx ⊢
    split_ifs <;> omega
  · simp only [clampBand, fMin, fMax] at h1 h2 ⊢
    split_ifs <;> omega

/-- Witness for freq_stays_in_band at concrete inputs. -/
theorem freq_stays_in_band_witness :
    (fMin ≤ (run 0 [(1, 100)]).freqHz ∧ (run 0 [(1, 100)]).freqHz ≤ fMax)
    ∧ clampBand 6999999 = fMin
    ∧ clampBand 7200001 = fMax
    ∧ clampBand 7100000 = 7100000 :=
  ⟨freq_stays_in_band.1 0 [(1, 100)],
   freq_stays_in_band.2.1 6999999 (by decide),
   freq_stays_in_band.2.2.1 7200001 (by decide),
   freq_stays_in_band.2.2.2 7100000 (by decide) (by decide)⟩

/-- C2: the quadrature decoder leaves the accumulator unchanged on a
repeated 2-bit code (and does not even touch the stored code), adds 1 on
a forward-table pair, subtracts 1 on a reverse-table pair, leaves it
unchanged on any other pairing, and stores the new code in every
non-repeated case. -/
theorem encoder_transition_table (p n : Nat) (c : Int)
    (hp : p < 4) (hn : n < 4) :
    (n = p → encoder_sample ⟨p, c⟩ n = ⟨p, c⟩)
    ∧ (n ≠ p → (encoder_sample ⟨p, c⟩ n).saved = n)
    ∧ (fwd_pair p n = true → (encoder_sample ⟨p, c⟩ n).count = c + 1)
    ∧ (rev_pair p n = true → (encoder_sample ⟨p, c⟩ n).count = c - 1)
    ∧ (n ≠ p → fwd_pair p n = false → rev_pair p n = false →
        (encoder_sample ⟨p, c⟩ n).count = c) := by
  interval_cases p <;> interval_cases n <;>
    simp [encoder_sample, fwd_pair, rev_pair]

/-- Witness for encoder_transition_table at the forward pair (2, 3). -/
theorem encoder_transition_table_witness :
    ((3 : Nat) = 2 → encoder_sample ⟨2, 0⟩ 3 = ⟨2, 0⟩)
    ∧ ((3 : Nat) ≠ 2 → (encoder_sample ⟨2, 0⟩ 3).saved = 3)
    ∧ (fwd_pair 2 3 = true → (encoder_sample ⟨2, 0⟩ 3).count = 0 + 1)
    ∧ (rev_pair 2 3 = true → (encoder_sample ⟨2, 0⟩ 3).count = 0 - 1)
    ∧ ((3 : Nat) ≠ 2 → fwd_pair 2 3 = false → rev_pair 2 3 = false →
        (encoder_sample ⟨2, 0⟩ 3).count = 0) :=
  encoder_transition_table 2 3 0 (by decide) (by decide)

/-- C7: an idle call (detents = 0) changes at most step_index: it becomes
0 exactly when more than 150 ms have elapsed since last_move_ms, and the
frequency, both timestamps, the turbo deadline and the fast streak are
untouched. -/
theorem idle_call_effect (s : Tuner) (now : Nat) :
    Tuner.update s 0 now =
      { s with current :=
          if 150 < sub32 (wrap32 now) s.last_move_ms then 0 else s.current } := by
  rw [update_eq_of_zero]
  split_ifs <;> rfl

/-- C8: RollingVelocity::update with a non-positive dt returns the stored
EMA and leaves the state unchanged, for every detent count. -/
theorem velocity_nonpos_dt_noop (s : RollingVelocity) (detents : ℤ) (dt : ℝ)
    (h : dt ≤ 0) :
    RollingVelocity.update s detents dt = (s.v_ema, s) := by
  unfold RollingVelocity.update
  rw [if_pos h]

/-- Witness for velocity_nonpos_dt_noop at dt = -1. -/
theorem velocity_nonpos_dt_noop_witness :
    RollingVelocity.update ⟨6, 2⟩ 5 (-1) = ((2 : ℝ), (⟨6, 2⟩ : RollingVelocity)) :=
  velocity_nonpos_dt_noop ⟨6, 2⟩ 5 (-1) (neg_nonpos.mpr zero_le_one)

/-- C9: the switch confirmation is idempotent in the live pin level: a
second call with the same reading is a no-op; the latch always ends equal
to the pin level; the press event is raised exactly on a pressed reading
with the latch released; a released reading never raises the event. -/
theorem switch_latch_idempotent (pin : Bool) (s : Switch) :
    handle_switch pin (handle_switch pin s) = handle_switch pin s
    ∧ (handle_switch pin s).button_state = pin
    ∧ (handle_switch pin s).button_pressed
        = (s.button_pressed || (pin && !s.button_state))
    ∧ (pin = false →
        (handle_switch pin s).button_pressed = s.button_pressed) := by
  obtain ⟨a, b⟩ := s
  cases pin <;> cases a <;> cases b <;> decide

/-- Witness for switch_latch_idempotent on a released reading with the
latch set. -/
theorem switch_latch_idempotent_witness :
    handle_switch false (handle_switch false ⟨true, false⟩)
        = handle_switch false ⟨true, false⟩
    ∧ (handle_switch false ⟨true, false⟩).button_state = false
    ∧ (handle_switch false ⟨true, false⟩).button_pressed
        = (false || (false && !true))
    ∧ (handle_switch false ⟨true, false⟩).button_pressed = false :=
  ⟨(switch_latch_idempotent false ⟨true, false⟩).1,
   (switch_latch_idempotent false ⟨true, false⟩).2.1,
   (switch_latch_idempotent false ⟨true, false⟩).2.2.1,
   (switch_latch_idempotent false ⟨true, false⟩).2.2.2 rfl⟩

/-- C10: the per-event multiplier always lies in [1, 6]: flooring the
interval at 50 ms caps the raw quotient 300/idi at 6, so the upper clamp
at 8 is dead code (the result is just the raw quotient floored at 1). -/
theorem multiplier_range_one_to_six (idi : Nat) :
    1 ≤ multiplier_from_idi idi ∧ multiplier_from_idi idi ≤ 6
    ∧ multiplier_from_idi idi = max 1 (300 / max idi 50) := by
  have hx : 0 < max idi 50 :=
    Nat.lt_of_lt_of_le (by norm_num) (Nat.le_max_right idi 50)
  have h6 : 300 / max idi 50 ≤ 6 := by
    have h7 : 300 / max idi 50 < 7 :=
      (Nat.div_lt_iff_lt_mul hx).mpr
        (by have := Nat.le_max_right idi 50; omega)
    omega
  simp only [multiplier_from_idi]
  split_ifs <;> omega

/-- C3 counterexample: a sustained maximal-speed spin (one +1 detent per
millisecond, every idi strictly below each usable up_ms threshold) parks
step_index at 8, never 9 — promotion to rung 9 would need idi <= up_ms[9]
= 0, and even an idi of 0 is immediately demoted by down_ms[9] = 0.  The
stated claim that step_index reaches 9 is therefore false. -/
theorem rung_nine_unreachable_cex :
    (run 0 fastSeq).current = 8
    ∧ (Tuner.update (run 0 fastSeq) 1 7).current = 8
    ∧ (Tuner.update (run 0 fastSeq) 1 6).current = 8
    ∧ ((List.range 7).all fun k =>
        (run 0 (fastSeq.take k)).current != 9) = true := by
  decide

/-- C3 amended: promotion never lowers the step index, and any sustained
fast spin (1 <= idi < 55 ms, i.e. strictly below every usable up_ms
threshold) drives step_index monotonically up to 8 — the highest rung the
classifier can hold, rung 9 being reachable only as a turbo step. -/
theorem fast_spin_reaches_rung_eight :
    (∀ idi c, c ≤ promote idi c)
    ∧ (∀ (s : Tuner) (d : Int) (now : Nat), d ≠ 0 → s.current ≤ 9 →
        1 ≤ idiOf s (wrap32 now) → idiOf s (wrap32 now) < 55 →
        (Tuner.update s d now).current = 8) := by
  constructor
  · intro idi c
    exact le_promote idi c
  · intro s d now hd hc h1 h55
    rw [update_current_of_ne s d now hd]
    exact classify_fast _ _ h1 h55 hc

/-- Witness for fast_spin_reaches_rung_eight: a 40 ms detent from the
initial state jumps straight to rung 8. -/
theorem fast_spin_reaches_rung_eight_witness :
    (0 : Nat) ≤ promote 40 0
    ∧ (Tuner.update (initState 0) 1 40).current = 8 :=
  ⟨fast_spin_reaches_rung_eight.1 40 0,
   fast_spin_reaches_rung_eight.2 (initState 0) 1 40 (by decide) (by decide)
     (by decide) (by decide)⟩

/-- C4 counterexample: the velocity estimator is not idempotent on
no-motion updates with positive dt: from v_ema = 1 and alpha_per_sec = 6,
update(0, 1) stores exp(-6) < 1, not the previous value. -/
theorem velocity_zero_not_idempotent_cex :
    ((RollingVelocity.update ⟨6, 1⟩ 0 1).2).v_ema ≠ 1 := by
  rw [velocity_update_zero_pos ⟨6, 1⟩ 1 one_pos]
  show Real.exp (-(6 : ℝ) * 1) * 1 ≠ 1
  rw [mul_one]
  have hlt : Real.exp (-(6 : ℝ) * 1) < 1 := by
    rw [Real.exp_lt_one_iff]
    norm_num
  exact ne_of_lt hlt

/-- C4 amended: update(0, dt) is a no-op only for dt <= 0; for dt > 0 the
stored value decays to exp(-alpha_per_sec * dt) times the previous value
(so it is unchanged only when it is already 0). -/
theorem velocity_zero_detents_decays (s : RollingVelocity) (dt : ℝ) :
    (dt ≤ 0 → RollingVelocity.update s 0 dt = (s.v_ema, s))
    ∧ (0 < dt → ((RollingVelocity.update s 0 dt).2).v_ema
        = Real.exp (-s.alpha_per_sec * dt) * s.v_ema) := by
  constructor
  · intro h
    unfold RollingVelocity.update
    rw [if_pos h]
  · intro h
    exact velocity_update_zero_pos s dt h

/-- Witness for velocity_zero_detents_decays at dt = -1 and dt = 1. -/
theorem velocity_zero_detents_decays_witness :
    RollingVelocity.update ⟨6, 2⟩ 0 (-1) = ((2 : ℝ), (⟨6, 2⟩ : RollingVelocity))
    ∧ ((RollingVelocity.update ⟨6, 2⟩ 0 1).2).v_ema
        = Real.exp (-(6 : ℝ) * 1) * 2 :=
  ⟨(velocity_zero_detents_decays ⟨6, 2⟩ (-1)).1 (neg_nonpos.mpr zero_le_one),
   (velocity_zero_detents_decays ⟨6, 2⟩ 1).2 one_pos⟩

/-- C5: (a) three consecutive detents with idi < 70 ms from a clear
streak arm a turbo window ending 250 ms after the third call and clear
the streak; (b) a non-idle call inside the turbo window with (post-
classification) step_index < 9 applies the next rung's step size while
leaving step_index at the classification result; (c) a detent with
idi >= 70 ms clears the streak and leaves the turbo deadline alone. -/
theorem turbo_streak_and_override :
    (∀ (s : Tuner) (d1 d2 d3 : Int) (t1 t2 t3 : Nat),
      s.fast_streak = 0 → d1 ≠ 0 → d2 ≠ 0 → d3 ≠ 0 →
      idiOf s (wrap32 t1) < 70 →
      idiOf (Tuner.update s d1 t1) (wrap32 t2) < 70 →
      idiOf (Tuner.update (Tuner.update s d1 t1) d2 t2) (wrap32 t3) < 70 →
      (Tuner.update (Tuner.update (Tuner.update s d1 t1) d2 t2) d3 t3).turbo_until_ms
          = wrap32 (wrap32 t3 + 250)
        ∧ (Tuner.update (Tuner.update (Tuner.update s d1 t1) d2 t2) d3 t3).fast_streak
          = 0)
    ∧ (∀ (s : Tuner) (d : Int) (now : Nat), d ≠ 0 →
        classify (idiOf s (wrap32 now)) s.current < 9 →
        wrap32 now < (streakStep s.fast_streak (idiOf s (wrap32 now)) (wrap32 now)
          s.turbo_until_ms).2 →
        (Tuner.update s d now).freqHz
            = clampBand (s.freqHz
                + steps (classify (idiOf s (wrap32 now)) s.current + 1)
                  * (multiplier_from_idi (idiOf s (wrap32 now)) : Int)
                  * (if 0 < d then 1 else -1))
          ∧ (Tuner.update s d now).current
            = classify (idiOf s (wrap32 now)) s.current)
    ∧ (∀ (s : Tuner) (d : Int) (now : Nat), d ≠ 0 →
        70 ≤ idiOf s (wrap32 now) →
        (Tuner.update s d now).fast_streak = 0
          ∧ (Tuner.update s d now).turbo_until_ms = s.turbo_until_ms) := by
  refine ⟨?_, ?_, ?_⟩
  · intro s d1 d2 d3 t1 t2 t3 hs0 h1 h2 h3 hi1 hi2 hi3
    have e1 : (Tuner.update s d1 t1).fast_streak = 1 := by
      simp [update_streak_of_ne s d1 t1 h1, streakStep, hs0, hi1]
    have e2 : (Tuner.update (Tuner.update s d1 t1) d2 t2).fast_streak = 2 := by
      simp [update_streak_of_ne _ d2 t2 h2, streakStep, e1, hi2]
    constructor
    · simp [update_turbo_of_ne _ d3 t3 h3, streakStep, e2, hi3]
    · simp [update_streak_of_ne _ d3 t3 h3, streakStep, e2, hi3]
  · intro s d now hd hc9 hwin
    have hstep : stepFor (wrap32 now)
        (streakStep s.fast_streak (idiOf s (wrap32 now)) (wrap32 now)
          s.turbo_until_ms).2
        (classify (idiOf s (wrap32 now)) s.current)
        = steps (classify (idiOf s (wrap32 now)) s.current + 1) := by
      unfold stepFor
      rw [if_pos ⟨hwin, hc9⟩]
    refine ⟨?_, update_current_of_ne s d now hd⟩
    rw [update_freq_of_ne s d now hd, hstep]
  · intro s d now hd hslow
    have hn : ¬(idiOf s (wrap32 now) < 70) := not_lt.mpr hslow
    constructor
    · simp [update_streak_of_ne s d now hd, streakStep, hn]
    · simp [update_turbo_of_ne s d now hd, streakStep, hn]

/-- C6: a non-idle update first walks the step index up through the up_ms
thresholds, then down through the down_ms thresholds (the promote and
demote loops), and the step index stays within [0, 9] across any call. -/
theorem step_index_classification_and_bounds :
    (∀ (s : Tuner) (d : Int) (now : Nat), d ≠ 0 →
      (Tuner.update s d now).current
        = demote (idiOf s (wrap32 now)) (promote (idiOf s (wrap32 now)) s.current))
    ∧ (∀ (s : Tuner) (d : Int) (now : Nat), s.current ≤ 9 →
        (Tuner.update s d now).current ≤ 9) := by
  constructor
  · intro s d now hd
    rw [update_current_of_ne s d now hd]
    rfl
  · intro s d now h
    by_cases hd : d = 0
    · subst hd
      rw [update_eq_of_zero]
      split_ifs
      · exact Nat.zero_le 9
      · exact h
    · rw [update_current_of_ne s d now hd]
      exact classify_le_nine _ _ h

/-- Witness for step_index_classification_and_bounds at the initial state
and one +1 detent. -/
theorem step_index_classification_and_bounds_witness :
    (Tuner.update (initState 0) 1 100).current
      = demote (idiOf (initState 0) (wrap32 100))
          (promote (idiOf (initState 0) (wrap32 100)) (initState 0).current)
    ∧ (Tuner.update (initState 0) 1 100).current ≤ 9 :=
  ⟨step_index_classification_and_bounds.1 (initState 0) 1 100 (by decide),
   step_index_classification_and_bounds.2 (initState 0) 1 100 (by decide)⟩

/-- Witness for turbo_streak_and_override: three 10 ms-spaced detents arm
the turbo, a call inside an armed window borrows the rung-9 step, and a
100 ms detent clears the streak. -/
theorem turbo_streak_and_override_witness :
    ((Tuner.update (Tuner.update (Tuner.update (initState 0) 1 10) 1 20) 1 30).turbo_until_ms
        = wrap32 (wrap32 30 + 250)
      ∧ (Tuner.update (Tuner.update (Tuner.update (initState 0) 1 10) 1 20) 1 30).fast_streak
        = 0)
    ∧ ((Tuner.update ⟨0, 7100000, 1000, 0, 0, 0⟩ 1 40).freqHz
        = clampBand ((⟨0, 7100000, 1000, 0, 0, 0⟩ : Tuner).freqHz
            + steps (classify (idiOf ⟨0, 7100000, 1000, 0, 0, 0⟩ (wrap32 40))
                (⟨0, 7100000, 1000, 0, 0, 0⟩ : Tuner).current + 1)
              * (multiplier_from_idi (idiOf ⟨0, 7100000, 1000, 0, 0, 0⟩ (wrap32 40)) : Int)
              * (if (0 : Int) < 1 then 1 else -1))
      ∧ (Tuner.update ⟨0, 7100000, 1000, 0, 0, 0⟩ 1 40).current
        = classify (idiOf ⟨0, 7100000, 1000, 0, 0, 0⟩ (wrap32 40))
            (⟨0, 7100000, 1000, 0, 0, 0⟩ : Tuner).current)
    ∧ ((Tuner.update (initState 0) 1 100).fast_streak = 0
      ∧ (Tuner.update (initState 0) 1 100).turbo_until_ms
        = (initState 0).turbo_until_ms) :=
  ⟨turbo_streak_and_override.1 (initState 0) 1 1 1 10 20 30 (by decide) (by decide)
      (by decide) (by decide) (by decide) (by decide) (by decide),
   turbo_streak_and_override.2.1 ⟨0, 7100000, 1000, 0, 0, 0⟩ 1 40 (by decide)
      (by decide) (by decide),
   turbo_streak_and_override.2.2 (initState 0) 1 100 (by decide) (by decide)⟩

end PicoVFO
